import Mathlib

/-!
Verification of the generation-orchestration pipeline of the
YnnAI_Model_V1.1 repository (a browser front end chaining calls to a
vision-description service and the Leonardo image-generation API).

The TypeScript source (`src/utils/leonardoService.ts`,
`openaiService.ts`) is shallowly embedded here:
* JavaScript numbers appearing in the dimension and weight computations
  are modelled as exact rationals (`ℚ`); `Math.floor` is `Int.floor`,
  `Math.round` is `round` (both round ties toward +∞, as in JS),
  `Number.prototype.toFixed(2)` is rounding to two decimal places.
* Network effects (fetch, XMLHttpRequest) are modelled by oracle
  parameters describing the outcome of each outbound call; every
  embedded operation additionally returns the number of calls it made,
  so that claims about "exactly n attempts" can be stated.
* Strings are Lean `String` / `List Char`; the two regular expressions
  of the description parser are embedded as explicit scanning functions
  with the exact left-to-right, greedy/lazy semantics they have in JS.
-/

namespace YnnAI

/-! ## Dimension normalization

Embeds the output-size computation shared verbatim by
`processWithImageToImageAndStyle` (leonardoService.ts lines 1073-1197)
and `processImageWithAdvancedFeatures` (lines 517-641).  The mutable
variables `outputWidth` / `outputHeight` of the source are expressed by
splitting the straight-line code into one definition per code block. -/

def minDimension : ℕ := 512

def maxDimension : ℕ := 768

/-- Pixel budget `pixelLimit = 589824` (768×768), leonardoService.ts line 1154. -/
def pixelLimit : ℕ := 589824

/-- Embeds `Math.floor(q / 8) * 8` for a nonnegative JS number `q`
(every argument passed to it in the source is nonnegative, so
`Int.toNat` loses nothing). -/
def floor8 (q : ℚ) : ℕ := (⌊q / 8⌋).toNat * 8

/-- Embeds `Math.floor(d * Math.sqrt(pixelLimit / pixelCount) / 8) * 8`
from the pixel-budget branch, computed exactly: for nonnegative reals,
`⌊d * Real.sqrt (L / pc) / 8⌋ = ⌊Real.sqrt (d ^ 2 * L / pc) / 8⌋ =`
`⌊Real.sqrt (d ^ 2 * L / (64 * pc))⌋ = Nat.sqrt (d ^ 2 * L / (64 * pc))`
(the floor of the square root of a nonnegative real is `Nat.sqrt` of its
floor, and the floor of `a / b` for naturals is natural division). -/
def scaleDim (d pc : ℕ) : ℕ := Nat.sqrt (d ^ 2 * pixelLimit / (64 * pc)) * 8

/-- Embeds the final pixel-budget check (lines 1152-1188): if the pixel
count exceeds `pixelLimit`, both axes are scaled down by
`sqrt(pixelLimit / pixelCount)` (floored to a multiple of 8) and then
floored at `minDimension`. -/
def clampPixels (p : ℕ × ℕ) : ℕ × ℕ :=
  if pixelLimit < p.1 * p.2 then
    (if scaleDim p.1 (p.1 * p.2) < minDimension then minDimension / 8 * 8
     else scaleDim p.1 (p.1 * p.2),
     if scaleDim p.2 (p.1 * p.2) < minDimension then minDimension / 8 * 8
     else scaleDim p.2 (p.1 * p.2))
  else p

/-- Embeds the wide-image block (lines 1104-1126): `aspectRatio >= 1`.
`outputHeight = Math.max(minDimension, Math.floor(minDimension / 8) * 8)`,
`outputWidth = Math.floor(outputHeight * aspectRatio / 8) * 8`, then if
`outputWidth > maxDimension` it is clamped to
`Math.floor(maxDimension / 8) * 8`, the height is recomputed as
`Math.floor(outputWidth / aspectRatio / 8) * 8` and floored at
`minDimension`. -/
def wideDims (r : ℚ) : ℕ × ℕ :=
  if maxDimension < floor8 ((max minDimension (minDimension / 8 * 8) : ℕ) * r) then
    (maxDimension / 8 * 8,
     if floor8 (((maxDimension / 8 * 8 : ℕ) : ℚ) / r) < minDimension
     then minDimension / 8 * 8
     else floor8 (((maxDimension / 8 * 8 : ℕ) : ℚ) / r))
  else (floor8 ((max minDimension (minDimension / 8 * 8) : ℕ) * r),
        max minDimension (minDimension / 8 * 8))

/-- Embeds the tall-image block (lines 1127-1150): `aspectRatio < 1`,
symmetric to `wideDims` with the roles of width and height swapped. -/
def tallDims (r : ℚ) : ℕ × ℕ :=
  if maxDimension < floor8 ((max minDimension (minDimension / 8 * 8) : ℕ) / r) then
    (if floor8 (((maxDimension / 8 * 8 : ℕ) : ℚ) * r) < minDimension
     then minDimension / 8 * 8
     else floor8 (((maxDimension / 8 * 8 : ℕ) : ℚ) * r),
     maxDimension / 8 * 8)
  else (max minDimension (minDimension / 8 * 8),
        floor8 ((max minDimension (minDimension / 8 * 8) : ℕ) / r))

/-- Embeds the dimension-normalization computation
(leonardoService.ts lines 1073-1197, identical copy at 517-641): when
both requested dimensions are positive, the aspect-ratio-preserving
resize runs and the result passes the pixel-budget check; otherwise the
defaults `512 × 512` stand (the source guards with
`dimensions.width > 0 && dimensions.height > 0`). -/
def normalizeDimensions (w h : ℕ) : ℕ × ℕ :=
  if 0 < w ∧ 0 < h then
    clampPixels (if 1 ≤ ((w : ℚ) / (h : ℚ)) then wideDims ((w : ℚ) / (h : ℚ))
                 else tallDims ((w : ℚ) / (h : ℚ)))
  else (512, 512)

/-! ### Arithmetic facts about `floor8` -/

lemma floor8_dvd (q : ℚ) : 8 ∣ floor8 q := ⟨(⌊q / 8⌋).toNat, by rw [floor8]; ring⟩

lemma le_floor8 (k : ℕ) (q : ℚ) (h : 8 * (k : ℚ) ≤ q) : 8 * k ≤ floor8 q := by
  have h0 : (k : ℤ) ≤ ⌊q / 8⌋ := by
    rw [Int.le_floor]
    push_cast
    linarith
  have h1 : k ≤ (⌊q / 8⌋).toNat := by
    omega
  calc 8 * k ≤ 8 * (⌊q / 8⌋).toNat := by omega
    _ = floor8 q := by rw [floor8]; ring

lemma floor8_le (k : ℕ) (q : ℚ) (h : q < 8 * ((k : ℚ) + 1)) : floor8 q ≤ 8 * k := by
  have h0 : ⌊q / 8⌋ < (k : ℤ) + 1 := by
    rw [Int.floor_lt]
    push_cast
    linarith
  have h1 : (⌊q / 8⌋).toNat ≤ k := by omega
  calc floor8 q = 8 * (⌊q / 8⌋).toNat := by rw [floor8]; ring
    _ ≤ 8 * k := by omega

lemma le_of_lt_floor8 (k : ℕ) (q : ℚ) (h : 8 * k < floor8 q) : 8 * ((k : ℚ) + 1) ≤ q := by
  by_contra hc
  push_neg at hc
  exact absurd (floor8_le k q hc) (by omega)

lemma of_le_floor8 (k : ℕ) (q : ℚ) (h : 8 * k ≤ floor8 q) (hk : 0 < k) : 8 * ((k : ℚ) - 1) < q := by
  by_contra hc
  push_neg at hc
  have : floor8 q ≤ 8 * (k - 1) := by
    apply floor8_le
    push_cast [hk]
    linarith
  omega

/-- On a multiple of 8, `floor8` is the identity. -/
lemma floor8_coe (x : ℕ) (hx : x % 8 = 0) : floor8 ((x : ℚ)) = x := by
  obtain ⟨m, rfl⟩ : ∃ m, x = 8 * m := ⟨x / 8, by omega⟩
  have h : ((8 * m : ℕ) : ℚ) / 8 = (m : ℚ) := by push_cast; ring
  rw [floor8, h, Int.floor_natCast, Int.toNat_natCast]
  ring

/-! ### Closed forms for the two aspect-ratio branches

In the clamped sub-branch the recomputed short axis always lands below
`minDimension` (the clamp only triggers for ratios ≥ 97/64, which force
the other axis below 507), so each branch reduces to a one-line closed
form. -/

lemma wideDims_eq (r : ℚ) (hr : 1 ≤ r) :
    wideDims r = (min 768 (floor8 (512 * r)), 512) := by
  have hr0 : 0 < r := lt_of_lt_of_le one_pos hr
  rw [wideDims]
  norm_num [minDimension, maxDimension]
  split_ifs with h1 h2
  · rw [min_eq_left (le_of_lt h1)]
  · exfalso
    apply h2
    have hq : (776 : ℚ) ≤ 512 * r := by
      have := le_of_lt_floor8 96 (512 * r) (by omega)
      norm_num at this
      linarith
    have hlt : (768 : ℚ) / r < 512 := by
      rw [div_lt_iff₀ hr0]
      linarith
    have := floor8_le 63 ((768 : ℚ) / r) (by norm_num; linarith)
    omega
  · rw [min_eq_right (by omega)]

lemma tallDims_eq (r : ℚ) (hr0 : 0 < r) (hr : r < 1) :
    tallDims r = (512, min 768 (floor8 (512 / r))) := by
  rw [tallDims]
  norm_num [minDimension, maxDimension]
  split_ifs with h1 h2
  · rw [min_eq_left (le_of_lt h1)]
  · exfalso
    apply h2
    have hq : (776 : ℚ) ≤ 512 / r := by
      have := le_of_lt_floor8 96 (512 / r) (by omega)
      norm_num at this
      linarith
    have hle : 512 / r * r = 512 := div_mul_cancel₀ _ (ne_of_gt hr0)
    have hlt : (768 : ℚ) * r < 512 := by
      have h776 : 776 * r ≤ 512 := by
        calc 776 * r ≤ (512 / r) * r := by nlinarith
          _ = 512 := hle
      nlinarith
    have := floor8_le 63 ((768 : ℚ) * r) (by norm_num; linarith)
    omega
  · rw [min_eq_right (by omega)]

/-- The pixel-budget branch is the identity whenever the pixel count is
within the budget (which, as the shape lemma shows, is always the case
for the pairs produced by the two aspect-ratio branches). -/
lemma clampPixels_eq (p : ℕ × ℕ) (h : p.1 * p.2 ≤ pixelLimit) : clampPixels p = p := by
  rw [clampPixels, if_neg (by omega)]

/-- Every output of `normalizeDimensions` on positive inputs has one
axis equal to 512 and the other a multiple of 8 in `[512, 768]`. -/
lemma normalizeDimensions_shape (w h : ℕ) (hw : 0 < w) (hh : 0 < h) :
    (∃ x, normalizeDimensions w h = (x, 512) ∧ 512 ≤ x ∧ x ≤ 768 ∧ x % 8 = 0) ∨
    (∃ y, normalizeDimensions w h = (512, y) ∧ 512 ≤ y ∧ y ≤ 768 ∧ y % 8 = 0) := by
  have hw0 : (0 : ℚ) < (w : ℚ) := by exact_mod_cast hw
  have hh0 : (0 : ℚ) < (h : ℚ) := by exact_mod_cast hh
  have hr0 : 0 < (w : ℚ) / (h : ℚ) := div_pos hw0 hh0
  rw [normalizeDimensions, if_pos ⟨hw, hh⟩]
  by_cases hr : 1 ≤ ((w : ℚ) / (h : ℚ))
  · left
    rw [if_pos hr, wideDims_eq _ hr]
    have hx1 : 512 ≤ min 768 (floor8 (512 * ((w : ℚ) / (h : ℚ)))) := by
      have : 8 * 64 ≤ floor8 (512 * ((w : ℚ) / (h : ℚ))) := by
        apply le_floor8
        norm_num
        nlinarith
      omega
    have hx2 : min 768 (floor8 (512 * ((w : ℚ) / (h : ℚ)))) ≤ 768 := min_le_left _ _
    have hx3 : min 768 (floor8 (512 * ((w : ℚ) / (h : ℚ)))) % 8 = 0 := by
      rcases min_choice 768 (floor8 (512 * ((w : ℚ) / (h : ℚ)))) with hc | hc <;> rw [hc]
      obtain ⟨t, ht⟩ := floor8_dvd (512 * ((w : ℚ) / (h : ℚ)))
      omega
    refine ⟨_, clampPixels_eq _ (by rw [pixelLimit]; omega), hx1, hx2, hx3⟩
  · right
    push_neg at hr
    rw [if_neg (not_le.mpr hr), tallDims_eq _ hr0 hr]
    have hy1 : 512 ≤ min 768 (floor8 (512 / ((w : ℚ) / (h : ℚ)))) := by
      have : 8 * 64 ≤ floor8 (512 / ((w : ℚ) / (h : ℚ))) := by
        apply le_floor8
        norm_num
        rw [le_div_iff₀ hr0]
        nlinarith
      omega
    have hy2 : min 768 (floor8 (512 / ((w : ℚ) / (h : ℚ)))) ≤ 768 := min_le_left _ _
    have hy3 : min 768 (floor8 (512 / ((w : ℚ) / (h : ℚ)))) % 8 = 0 := by
      rcases min_choice 768 (floor8 (512 / ((w : ℚ) / (h : ℚ)))) with hc | hc <;> rw [hc]
      obtain ⟨t, ht⟩ := floor8_dvd (512 / ((w : ℚ) / (h : ℚ)))
      omega
    refine ⟨_, clampPixels_eq _ (by rw [pixelLimit]; omega), hy1, hy2, hy3⟩

/-- Pairs `(x, 512)` with `x` a multiple of 8 in `[512, 768]` are fixed
points of the normalization. -/
lemma normalizeDimensions_fix_wide (x : ℕ) (h1 : 512 ≤ x) (h2 : x ≤ 768) (h3 : x % 8 = 0) :
    normalizeDimensions x 512 = (x, 512) := by
  have hx0 : (0 : ℚ) < (x : ℚ) := by exact_mod_cast (by omega : 0 < x)
  have hr : 1 ≤ ((x : ℚ) / ((512 : ℕ) : ℚ)) := by
    have hcast : (512 : ℚ) ≤ (x : ℚ) := by exact_mod_cast h1
    rw [le_div_iff₀ (by norm_num)]
    push_cast
    linarith
  rw [normalizeDimensions, if_pos ⟨by omega, by norm_num⟩, if_pos hr, wideDims_eq _ hr]
  have key : (512 : ℚ) * ((x : ℚ) / ((512 : ℕ) : ℚ)) = ((x : ℕ) : ℚ) := by
    push_cast
    field_simp
  rw [key, floor8_coe x h3, min_eq_right h2]
  exact clampPixels_eq _ (by rw [pixelLimit]; omega)

/-- Pairs `(512, y)` with `y` a multiple of 8 in `[512, 768]` are fixed
points of the normalization. -/
lemma normalizeDimensions_fix_tall (y : ℕ) (h1 : 512 ≤ y) (h2 : y ≤ 768) (h3 : y % 8 = 0) :
    normalizeDimensions 512 y = (512, y) := by
  by_cases hy : y = 512
  · subst hy
    exact normalizeDimensions_fix_wide 512 (by omega) (by omega) (by omega)
  · have hy1 : 512 < y := by omega
    have hy0 : (0 : ℚ) < (y : ℚ) := by exact_mod_cast (by omega : 0 < y)
    have hrlt : (((512 : ℕ) : ℚ) / (y : ℚ)) < 1 := by
      rw [div_lt_one hy0]
      push_cast
      exact_mod_cast hy1
    have hr0 : 0 < (((512 : ℕ) : ℚ) / (y : ℚ)) := div_pos (by norm_num) hy0
    rw [normalizeDimensions, if_pos ⟨by norm_num, by omega⟩, if_neg (not_le.mpr hrlt),
      tallDims_eq _ hr0 hrlt]
    have key : (512 : ℚ) / (((512 : ℕ) : ℚ) / (y : ℚ)) = ((y : ℕ) : ℚ) := by
      push_cast
      field_simp
    rw [key, floor8_coe y h3, min_eq_right h2]
    exact clampPixels_eq _ (by rw [pixelLimit]; omega)

/-- C2: for all positive input dimensions, the normalized output pair
consists of multiples of 8, each lying in `[minDimension, maxDimension]`
(so in particular at least `minDimension` and — even without the
pixel-budget or floor-clamp caveats of the claim — at most
`maxDimension`), and the output pixel count never exceeds `pixelLimit`. -/
theorem normalizeDimensions_bounds (w h : ℕ) (hw : 0 < w) (hh : 0 < h) :
    (normalizeDimensions w h).1 % 8 = 0 ∧ (normalizeDimensions w h).2 % 8 = 0 ∧
    minDimension ≤ (normalizeDimensions w h).1 ∧ minDimension ≤ (normalizeDimensions w h).2 ∧
    (normalizeDimensions w h).1 ≤ maxDimension ∧ (normalizeDimensions w h).2 ≤ maxDimension ∧
    (normalizeDimensions w h).1 * (normalizeDimensions w h).2 ≤ pixelLimit := by
  rw [minDimension, maxDimension, pixelLimit]
  rcases normalizeDimensions_shape w h hw hh with ⟨x, hx, b1, b2, b3⟩ | ⟨y, hy, b1, b2, b3⟩
  · rw [hx]
    refine ⟨b3, by norm_num, b1, by norm_num, b2, by norm_num, ?_⟩
    simp only
    omega
  · rw [hy]
    refine ⟨by norm_num, b3, by norm_num, b1, by norm_num, b2, ?_⟩
    simp only
    omega

/-- Witness for C2 at the concrete input 1024 × 768. -/
theorem normalizeDimensions_bounds_witness :
    0 < 1024 ∧ 0 < 768 ∧
    ((normalizeDimensions 1024 768).1 % 8 = 0 ∧ (normalizeDimensions 1024 768).2 % 8 = 0 ∧
     minDimension ≤ (normalizeDimensions 1024 768).1 ∧
     minDimension ≤ (normalizeDimensions 1024 768).2 ∧
     (normalizeDimensions 1024 768).1 ≤ maxDimension ∧
     (normalizeDimensions 1024 768).2 ≤ maxDimension ∧
     (normalizeDimensions 1024 768).1 * (normalizeDimensions 1024 768).2 ≤ pixelLimit) :=
  ⟨by norm_num, by norm_num,
   normalizeDimensions_bounds 1024 768 (by norm_num) (by norm_num)⟩

/-- C3: the dimension normalization is idempotent — applying it to its
own output (for any positive input) returns that output unchanged. -/
theorem normalizeDimensions_idempotent (w h : ℕ) (hw : 0 < w) (hh : 0 < h) :
    normalizeDimensions (normalizeDimensions w h).1 (normalizeDimensions w h).2 =
      normalizeDimensions w h := by
  rcases normalizeDimensions_shape w h hw hh with ⟨x, hx, b1, b2, b3⟩ | ⟨y, hy, b1, b2, b3⟩
  · rw [hx]
    exact normalizeDimensions_fix_wide x b1 b2 b3
  · rw [hy]
    exact normalizeDimensions_fix_tall y b1 b2 b3

/-- Witness for C3 at the concrete input 1024 × 768. -/
theorem normalizeDimensions_idempotent_witness :
    0 < 1024 ∧ 0 < 768 ∧
    normalizeDimensions (normalizeDimensions 1024 768).1 (normalizeDimensions 1024 768).2 =
      normalizeDimensions 1024 768 :=
  ⟨by norm_num, by norm_num,
   normalizeDimensions_idempotent 1024 768 (by norm_num) (by norm_num)⟩

/-! ## HTTP retry wrapper

Embeds `fetchWithRetry` (leonardoService.ts lines 80-122).  The outcome
of the `i`-th `fetch` call is given by the oracle `attempts i`.  The
value component records the observable result (the returned response or
the message of the error that escapes the function); the second
component counts how many `fetch` calls were performed. -/

/-- Outcome of one underlying `fetch` call. -/
inductive FetchAttempt where
  | ok
  | status (code : ℕ)
  | netError
deriving DecidableEq

/-- The failure that escapes `fetchWithRetry`: the auth error thrown
for 401/403 (`认证失败`), the generic HTTP error, the underlying fetch
exception, or `Maximum retries reached`. -/
inductive FetchFailure where
  | authError (code : ℕ)
  | httpError (code : ℕ)
  | network
  | maxRetries
deriving DecidableEq

/-- One iteration of the `for (let i = 0; i < retries; i++)` loop:
`rem` is the number of remaining iterations (`retries - i`), so
`rem = 1` means this is the last iteration, in which the `catch` block
rethrows instead of sleeping and continuing.  A 429 response never
throws (the loop just continues), every other non-ok outcome throws and
is caught, and the auth throw for 401/403 is caught by the very same
`catch (error)` as every other error. -/
def fetchLoop (attempts : ℕ → FetchAttempt) : ℕ → ℕ → Except FetchFailure Unit × ℕ
  | 0, i => (Except.error FetchFailure.maxRetries, i)
  | rem + 1, i =>
    match attempts i with
    | FetchAttempt.ok => (Except.ok (), i + 1)
    | FetchAttempt.status c =>
      if c = 401 ∨ c = 403 then
        if rem = 0 then (Except.error (FetchFailure.authError c), i + 1)
        else fetchLoop attempts rem (i + 1)
      else if c = 429 then fetchLoop attempts rem (i + 1)
      else
        if rem = 0 then (Except.error (FetchFailure.httpError c), i + 1)
        else fetchLoop attempts rem (i + 1)
    | FetchAttempt.netError =>
      if rem = 0 then (Except.error FetchFailure.network, i + 1)
      else fetchLoop attempts rem (i + 1)

/-- Embeds `fetchWithRetry(url, options, retries = 3, delay = 1000)`: the
result together with the number of `fetch` calls performed. -/
def fetchWithRetry (attempts : ℕ → FetchAttempt) (retries : ℕ) : Except FetchFailure Unit × ℕ :=
  fetchLoop attempts retries 0

/-- C1 (code bug): with the default `retries = 3` and every fetch
answering HTTP 401, `fetchWithRetry` performs 3 fetch attempts — not
exactly 1 as the claim (and the comment in the source, `如果是认证错误，立即失败`,
that is, fail immediately on auth errors) states — because the thrown
auth error is caught by the `catch` of the retry loop itself, which
sleeps and retries until the final attempt. -/
theorem fetchWithRetry_401_retries_thrice :
    fetchWithRetry (fun _ => FetchAttempt.status 401) 3 =
      (Except.error (FetchFailure.authError 401), 3) ∧
    fetchWithRetry (fun _ => FetchAttempt.status 500) 3 =
      (Except.error (FetchFailure.httpError 500), 3) := by
  constructor <;> rfl

/-! ## Polling completion waiters

Embeds `waitForGenerationCompletion` (leonardoService.ts lines 127-188)
and `waitForGenerationResultUrl` (lines 368-444).  The status fetched on
the `k`-th poll is given by an oracle; the second result component
counts status fetches. -/

/-- The remote job status (`generations_by_pk.status`). -/
inductive GenStatus where
  | COMPLETE
  | FAILED
  | PENDING
  | other (s : String)
deriving DecidableEq

/-- Parsed body of one status response: either the `generations_by_pk`
object (its status plus the id and url of the first generated image, if
any) or a body without that key. -/
inductive PollData where
  | byPk (status : GenStatus) (firstImageId : Option String) (firstImageUrl : Option String)
  | noByPk
deriving DecidableEq

/-- Outcome of one poll iteration of `waitForGenerationCompletion`:
either `fetchWithRetry` + `response.json()` produced data, or the whole
status fetch threw (which the `catch` inside the `while` loop absorbs). -/
inductive PollFetch where
  | success (d : PollData)
  | failure
deriving DecidableEq

/-- The `while (pollCount < maxPolls)` loop of
`waitForGenerationCompletion`: `rem` is the remaining poll budget, `fc`
the number of status fetches done so far, `delay` the current backoff
delay.  `COMPLETE` returns the first generated image id (or `null` if
absent), `FAILED` returns `null`, `PENDING` grows the delay by ×1.5
(capped at `maxDelay`), an unknown status or a missing
`generations_by_pk` just ticks, and a fetch error doubles the delay
(capped) and ticks. -/
def waitCompletionLoop (fetch : ℕ → PollFetch) (maxDelay : ℚ) :
    ℕ → ℕ → ℚ → Option String × ℕ
  | 0, fc, _ => (none, fc)
  | rem + 1, fc, delay =>
    match fetch fc with
    | PollFetch.failure => waitCompletionLoop fetch maxDelay rem (fc + 1) (min (delay * 2) maxDelay)
    | PollFetch.success PollData.noByPk => waitCompletionLoop fetch maxDelay rem (fc + 1) delay
    | PollFetch.success (PollData.byPk GenStatus.COMPLETE imgId _) => (imgId, fc + 1)
    | PollFetch.success (PollData.byPk GenStatus.FAILED _ _) => (none, fc + 1)
    | PollFetch.success (PollData.byPk GenStatus.PENDING _ _) =>
      waitCompletionLoop fetch maxDelay rem (fc + 1) (min (delay * 1.5) maxDelay)
    | PollFetch.success (PollData.byPk (GenStatus.other _) _ _) =>
      waitCompletionLoop fetch maxDelay rem (fc + 1) delay

/-- Embeds `waitForGenerationCompletion(generationId, options)`; the source
default is `{ maxPolls: 40, initialDelay: 3000, maxDelay: 10000 }`. -/
def waitForGenerationCompletion (fetch : ℕ → PollFetch) (maxPolls : ℕ)
    (initialDelay maxDelay : ℚ) : Option String × ℕ :=
  waitCompletionLoop fetch maxDelay maxPolls 0 initialDelay

/-- The `LeonardoResponse` result shape `{ success, imageUrl?, error? }`. -/
structure LeonardoResponse where
  success : Bool
  imageUrl : Option String
  error : Option String
deriving DecidableEq

/-- Outcome of one poll iteration of `waitForGenerationResultUrl`: the
`fetch` (or `response.json()`) threw with a message, or the response was
not ok (`!response.ok`), or it parsed to `PollData`. -/
inductive UrlFetch where
  | thrown (msg : String)
  | httpError (code : ℕ)
  | okResp (d : PollData)
deriving DecidableEq

/-- The `while (pollCount < MAX_POLLS)` loop of
`waitForGenerationResultUrl`.  A non-ok response sleeps and continues
(consuming budget, since `pollCount` was already incremented); a thrown
exception propagates to the outer `catch` of the function, which returns a
failure response immediately; budget exhaustion returns the
`等待生成超时` (timeout) failure. -/
def waitUrlLoop (fetch : ℕ → UrlFetch) : ℕ → ℕ → LeonardoResponse × ℕ
  | 0, fc => (⟨false, none, some "等待生成超时"⟩, fc)
  | rem + 1, fc =>
    match fetch fc with
    | UrlFetch.thrown msg => (⟨false, none, some msg⟩, fc + 1)
    | UrlFetch.httpError _ => waitUrlLoop fetch rem (fc + 1)
    | UrlFetch.okResp PollData.noByPk => waitUrlLoop fetch rem (fc + 1)
    | UrlFetch.okResp (PollData.byPk GenStatus.COMPLETE _ (some u)) =>
      (⟨true, some u, none⟩, fc + 1)
    | UrlFetch.okResp (PollData.byPk GenStatus.COMPLETE _ none) =>
      (⟨false, none, some "生成完成但未找到图像URL"⟩, fc + 1)
    | UrlFetch.okResp (PollData.byPk GenStatus.FAILED _ _) =>
      (⟨false, none, some "生成失败"⟩, fc + 1)
    | UrlFetch.okResp (PollData.byPk GenStatus.PENDING _ _) => waitUrlLoop fetch rem (fc + 1)
    | UrlFetch.okResp (PollData.byPk (GenStatus.other _) _ _) => waitUrlLoop fetch rem (fc + 1)

/-- Embeds `waitForGenerationResultUrl(generationId)`, with the poll budget
(the source constant `MAX_POLLS = 40`) as a parameter. -/
def waitForGenerationResultUrl (fetch : ℕ → UrlFetch) (maxPolls : ℕ) : LeonardoResponse × ℕ :=
  waitUrlLoop fetch maxPolls 0

/-- C4: on the status sequence `[PENDING, PENDING, COMPLETE]` with
`maxPolls = 5` both waiters succeed after exactly 3 status fetches, and
on an all-`PENDING` sequence with `maxPolls = 3` both report the
timeout outcome after exactly 3 status fetches. -/
theorem pollingWaiter_fetch_counts :
    waitForGenerationCompletion
        (fun k => if k < 2 then PollFetch.success (PollData.byPk GenStatus.PENDING none none)
                  else PollFetch.success (PollData.byPk GenStatus.COMPLETE (some "img-1") none))
        5 3000 10000 = (some "img-1", 3) ∧
    waitForGenerationCompletion
        (fun _ => PollFetch.success (PollData.byPk GenStatus.PENDING none none))
        3 3000 10000 = (none, 3) ∧
    waitForGenerationResultUrl
        (fun k => if k < 2 then UrlFetch.okResp (PollData.byPk GenStatus.PENDING none none)
                  else UrlFetch.okResp (PollData.byPk GenStatus.COMPLETE none (some "http://r/1.png")))
        5 = (⟨true, some "http://r/1.png", none⟩, 3) ∧
    waitForGenerationResultUrl
        (fun _ => UrlFetch.okResp (PollData.byPk GenStatus.PENDING none none))
        3 = (⟨false, none, some "等待生成超时"⟩, 3) := by
  refine ⟨rfl, rfl, rfl, rfl⟩

/-- C5 (counterexample): in `waitForGenerationCompletion` the
`FAILED`-status outcome and the exhausted-poll-budget outcome are the
same observable result — both return `null` — so the two terminal-error
outcomes of this waiter are *not* distinct observable results. -/
theorem waitCompletion_failed_eq_timeout :
    (waitForGenerationCompletion
        (fun _ => PollFetch.success (PollData.byPk GenStatus.FAILED none none))
        3 3000 10000).1 =
      (waitForGenerationCompletion
        (fun _ => PollFetch.success (PollData.byPk GenStatus.PENDING none none))
        3 3000 10000).1 ∧
    (waitForGenerationCompletion
        (fun _ => PollFetch.success (PollData.byPk GenStatus.FAILED none none))
        3 3000 10000).1 = none :=
  ⟨rfl, rfl⟩

/-- All-`PENDING` polling runs the whole budget and ends in the
timeout response. -/
lemma waitUrlLoop_pending_timeout (g : ℕ → UrlFetch)
    (hg : ∀ k, g k = UrlFetch.okResp (PollData.byPk GenStatus.PENDING none none)) :
    ∀ (n fc : ℕ), waitUrlLoop g n fc = (⟨false, none, some "等待生成超时"⟩, fc + n) := by
  intro n
  induction n with
  | zero => intro fc; simp [waitUrlLoop]
  | succ m ih =>
    intro fc
    rw [waitUrlLoop, hg fc, ih (fc + 1)]
    have e : fc + 1 + m = fc + (m + 1) := by omega
    rw [e]

/-- C5 (amended): `waitForGenerationResultUrl` does return two
distinguishable terminal-error outcomes — a `FAILED` status yields the
`生成失败` (generation failed) response and budget exhaustion yields the
`等待生成超时` (timeout) response, and these observable results differ. -/
theorem waitUrl_failed_timeout_distinct (f g : ℕ → UrlFetch) (n : ℕ) (i u : Option String)
    (hn : 0 < n)
    (hf : f 0 = UrlFetch.okResp (PollData.byPk GenStatus.FAILED i u))
    (hg : ∀ k, g k = UrlFetch.okResp (PollData.byPk GenStatus.PENDING none none)) :
    (waitForGenerationResultUrl f n).1 = ⟨false, none, some "生成失败"⟩ ∧
    (waitForGenerationResultUrl g n).1 = ⟨false, none, some "等待生成超时"⟩ ∧
    (waitForGenerationResultUrl f n).1 ≠ (waitForGenerationResultUrl g n).1 := by
  obtain ⟨m, rfl⟩ : ∃ m, n = m + 1 := ⟨n - 1, by omega⟩
  have e1 : (waitForGenerationResultUrl f (m + 1)).1 = ⟨false, none, some "生成失败"⟩ := by
    rw [waitForGenerationResultUrl, waitUrlLoop, hf]
  have e2 : (waitForGenerationResultUrl g (m + 1)).1 = ⟨false, none, some "等待生成超时"⟩ := by
    rw [waitForGenerationResultUrl, waitUrlLoop_pending_timeout g hg]
  refine ⟨e1, e2, ?_⟩
  rw [e1, e2]
  decide

/-- Witness for the amended C5 at `n = 3` with concrete oracles. -/
theorem waitUrl_failed_timeout_distinct_witness :
    0 < 3 ∧
    ((fun _ : ℕ => UrlFetch.okResp (PollData.byPk GenStatus.FAILED none none)) 0 =
      UrlFetch.okResp (PollData.byPk GenStatus.FAILED none none)) ∧
    (∀ k : ℕ, (fun _ : ℕ => UrlFetch.okResp (PollData.byPk GenStatus.PENDING none none)) k =
      UrlFetch.okResp (PollData.byPk GenStatus.PENDING none none)) ∧
    ((waitForGenerationResultUrl
        (fun _ => UrlFetch.okResp (PollData.byPk GenStatus.FAILED none none)) 3).1 =
      ⟨false, none, some "生成失败"⟩ ∧
     (waitForGenerationResultUrl
        (fun _ => UrlFetch.okResp (PollData.byPk GenStatus.PENDING none none)) 3).1 =
      ⟨false, none, some "等待生成超时"⟩ ∧
     (waitForGenerationResultUrl
        (fun _ => UrlFetch.okResp (PollData.byPk GenStatus.FAILED none none)) 3).1 ≠
      (waitForGenerationResultUrl
        (fun _ => UrlFetch.okResp (PollData.byPk GenStatus.PENDING none none)) 3).1) :=
  ⟨by decide, rfl, fun _ => rfl,
   waitUrl_failed_timeout_distinct _ _ 3 none none (by decide) rfl (fun _ => rfl)⟩

/-- C6 (counterexample): in `waitForGenerationResultUrl`, a *thrown*
transport exception does abort the polling loop — on a budget of 3
polls, an exception on the very first status fetch makes the waiter
return an error response after exactly 1 fetch instead of continuing to
poll until the budget is exhausted. -/
theorem waitUrl_exception_aborts :
    waitForGenerationResultUrl (fun _ => UrlFetch.thrown "TypeError: Failed to fetch") 3 =
      (⟨false, none, some "TypeError: Failed to fetch"⟩, 1) := rfl

/-- C6 (amended): in `waitForGenerationCompletion` a failed status
fetch is treated as one more poll tick (one unit of budget, with the
doubled-and-capped backoff applied) and the loop continues, and in
`waitForGenerationResultUrl` a non-ok HTTP status response is likewise
one more tick — only a thrown exception aborts the latter. -/
theorem poll_fetch_error_is_tick (f : ℕ → PollFetch) (g : ℕ → UrlFetch)
    (rem fc fc2 c : ℕ) (delay maxDelay : ℚ)
    (hf : f fc = PollFetch.failure) (hg : g fc2 = UrlFetch.httpError c) :
    waitCompletionLoop f maxDelay (rem + 1) fc delay =
      waitCompletionLoop f maxDelay rem (fc + 1) (min (delay * 2) maxDelay) ∧
    waitUrlLoop g (rem + 1) fc2 = waitUrlLoop g rem (fc2 + 1) := by
  constructor
  · rw [waitCompletionLoop, hf]
  · rw [waitUrlLoop, hg]

/-- Witness for the amended C6 with concrete oracles and budget. -/
theorem poll_fetch_error_is_tick_witness :
    ((fun _ : ℕ => PollFetch.failure) 0 = PollFetch.failure) ∧
    ((fun _ : ℕ => UrlFetch.httpError 500) 0 = UrlFetch.httpError 500) ∧
    (waitCompletionLoop (fun _ => PollFetch.failure) 10000 3 0 3000 =
      waitCompletionLoop (fun _ => PollFetch.failure) 10000 2 1 (min (3000 * 2) 10000) ∧
     waitUrlLoop (fun _ => UrlFetch.httpError 500) 3 0 =
      waitUrlLoop (fun _ => UrlFetch.httpError 500) 2 1) :=
  ⟨rfl, rfl,
   poll_fetch_error_is_tick (fun _ => PollFetch.failure) (fun _ => UrlFetch.httpError 500)
     2 0 0 500 3000 10000 rfl rfl⟩

/-! ## Image upload adapter

Embeds `uploadImage` (leonardoService.ts lines 1510-1689).  The browser
effects are oracles: `blobOk` says whether a nonempty `Blob` could be
built from the input (via `fetch(dataUrl)` or the base64 fallback —
decoding a data URL is not a network request), `init` is the outcome of
the `POST /init-image` call through `fetchWithRetry`, and `transfer` is
the outcome of the pre-signed S3 upload step.  The result pairs the
returned value with the number of network requests performed (the
init-image request plus the binary transfer, when they are reached). -/

/-- Outcome of the pre-signed-URL request: `fetchWithRetry` threw (the
outer `catch` then returns `null`), or the parsed body was missing one
of `id` / `url` / `fields`, or all three were obtained. -/
inductive InitImageOutcome where
  | thrown
  | incomplete
  | ok (uploadId uploadUrl fields : String)
deriving DecidableEq

/-- Outcome of the binary transfer step.  `JSON.parse(fields)` throwing
skips the transfer entirely (the inner `catch` still returns the id);
the XMLHttpRequest path resolves its promise on 2xx, on non-2xx *and*
on `onerror`, so none of those outcomes fail the call. -/
inductive TransferOutcome where
  | ok2xx
  | non2xx (code : ℕ)
  | xhrError
  | fieldsParseThrow
deriving DecidableEq

/-- Embeds `uploadImage(imageBase64)`: returned image id (or `null`) together
with the number of network requests made. -/
def uploadImage (imageBase64 : String) (blobOk : Bool) (init : InitImageOutcome)
    (transfer : TransferOutcome) : Option String × ℕ :=
  if imageBase64 = "" then (none, 0)
  else if ¬ blobOk then (none, 0)
  else
    match init with
    | InitImageOutcome.thrown => (none, 1)
    | InitImageOutcome.incomplete => (none, 1)
    | InitImageOutcome.ok uploadId _ _ =>
      match transfer with
      | TransferOutcome.fieldsParseThrow => (some uploadId, 1)
      | _ => (some uploadId, 2)

/-- C7: once the pre-signed target (`uploadId`, `url`, `fields`) is
obtained, `uploadImage` returns that `uploadId` whatever happens to the
binary transfer — non-2xx response, network error, or a thrown
exception never turn the call into a failure. -/
theorem uploadImage_returns_id_despite_transfer_failure
    (imageBase64 : String) (blobOk : Bool) (uploadId uploadUrl fields : String)
    (transfer : TransferOutcome) (hne : imageBase64 ≠ "") (hblob : blobOk = true) :
    (uploadImage imageBase64 blobOk (InitImageOutcome.ok uploadId uploadUrl fields) transfer).1 =
      some uploadId := by
  subst hblob
  cases transfer <;> simp [uploadImage, hne]

/-- Witness for C7: a failed (network-error) transfer still yields the
reserved upload id. -/
theorem uploadImage_returns_id_despite_transfer_failure_witness :
    ("data:image/png;base64,AAA" : String) ≠ "" ∧ (true : Bool) = true ∧
    (uploadImage "data:image/png;base64,AAA" true
        (InitImageOutcome.ok "upload-7" "https://s3/target" "\x7b\x7d") TransferOutcome.xhrError).1 =
      some "upload-7" :=
  ⟨by decide, rfl,
   uploadImage_returns_id_despite_transfer_failure
     "data:image/png;base64,AAA" true "upload-7" "https://s3/target" "\x7b\x7d"
     TransferOutcome.xhrError (by decide) rfl⟩

/-- C10: called on the empty string, `uploadImage` returns `null`
immediately and performs no network request at all, whatever the
environment would have answered. -/
theorem uploadImage_empty_input (blobOk : Bool) (init : InitImageOutcome)
    (transfer : TransferOutcome) :
    uploadImage "" blobOk init transfer = (none, 0) := rfl

/-! ## Element-weight normalization

Embeds `safelyAddElements` (leonardoService.ts lines 1750-1812) and the
local element catalogue `getAvailableElements` (lines 981-998). -/

/-- An entry of the local element catalogue (`LeonardoElement`). -/
structure LeonardoElement where
  akUUID : String
  name : String
  description : String
  weight : ℚ
  minWeight : Option ℚ
  maxWeight : Option ℚ
  compatibleModels : List String
deriving DecidableEq

/-- Default id of the Anime XL model (`MODEL_IDS.ANIME_XL`). -/
def MODEL_ANIME_XL : String := "e71a1c2f-4f80-4800-934f-2c68979d8cc8"

/-- The single `Cute Emotes` catalogue entry, with declared weight
bounds `minWeight 0.1`, `maxWeight 2.0`. -/
def cuteEmotesElement : LeonardoElement :=
  { akUUID := "01b6184e-3905-4dc7-9ec6-4f09982536d5",
    name := "Cute Emotes",
    description := "添加可爱的表情元素到图像中",
    weight := 0.5,
    minWeight := some 0.1,
    maxWeight := some 2,
    compatibleModels := [ MODEL_ANIME_XL ] }

/-- The local element catalogue (`getAvailableElements`). -/
def getAvailableElements : List LeonardoElement := [cuteEmotesElement]

/-- Embeds `Number(x.toFixed(2))`: round to two decimal places (JS `toFixed`
picks the larger candidate on ties, i.e. rounds ties toward +∞, exactly
as `round` does; every weight here is positive). -/
def toFixed2 (q : ℚ) : ℚ := ((round (q * 100) : ℤ) : ℚ) / 100

/-- Embeds `const minWeight = isLeonardoProcess ? 0.75 : 0.5` (line 1773). -/
def elementMinWeight (isLeonardoProcess : Bool) : ℚ :=
  if isLeonardoProcess then 0.75 else 0.5

/-- Embeds `const maxWeight = element.maxWeight || 1.5` (line 1774; a declared
maximum of `0` is falsy in JS and also falls back to 1.5). -/
def elementMaxWeight (declaredMax : Option ℚ) : ℚ :=
  match declaredMax with
  | some m => if m = 0 then 1.5 else m
  | none => 1.5

/-- Lines 1776-1787 of `safelyAddElements`:
`stepSize = (maxWeight - minWeight) / 50`,
`steps = Math.round((weight - minWeight) / stepSize)`,
`normalizedWeight = Number((minWeight + steps * stepSize).toFixed(2))`,
`safeWeight = Math.max(minWeight, Math.min(maxWeight, normalizedWeight))`. -/
def normalizeElementWeight (isLeonardoProcess : Bool) (declaredMax : Option ℚ)
    (weight : ℚ) : ℚ :=
  max (elementMinWeight isLeonardoProcess)
    (min (elementMaxWeight declaredMax)
      (toFixed2 (elementMinWeight isLeonardoProcess +
        ((round ((weight - elementMinWeight isLeonardoProcess) /
            ((elementMaxWeight declaredMax - elementMinWeight isLeonardoProcess) / 50)) : ℤ) : ℚ) *
          ((elementMaxWeight declaredMax - elementMinWeight isLeonardoProcess) / 50))))

/-- The snapped step values for steps 0 through 50. -/
def allowedElementWeights (isLeonardoProcess : Bool) (declaredMax : Option ℚ) : Finset ℚ :=
  (Finset.range 51).image (fun k : ℕ =>
    toFixed2 (elementMinWeight isLeonardoProcess +
      (k : ℚ) * ((elementMaxWeight declaredMax - elementMinWeight isLeonardoProcess) / 50)))

lemma toFixed2_bounds (x : ℚ) : x - 1 / 200 ≤ toFixed2 x ∧ toFixed2 x ≤ x + 1 / 200 := by
  have h := abs_sub_round (x * 100)
  rw [abs_le] at h
  obtain ⟨ha, hb⟩ := h
  constructor
  · rw [toFixed2]
    linarith
  · rw [toFixed2]
    linarith

lemma toFixed2_eq_self (x : ℚ) (hx : ∃ m : ℤ, (x * 100 : ℚ) = (m : ℚ)) : toFixed2 x = x := by
  obtain ⟨m, hm⟩ := hx
  rw [toFixed2, hm, round_intCast]
  linarith

/-- The snap-then-clamp computation returns one of the 51 snapped step
values and stays inside `[minWeight, maxWeight]`, whenever the step is
wider than the 0.01 rounding grain and both endpoints are two-decimal
numbers (both call-site configurations satisfy this). -/
lemma normalizeElementWeight_spec (isLP : Bool) (dm : Option ℚ) (w : ℚ)
    (hstep : 1 / 100 < (elementMaxWeight dm - elementMinWeight isLP) / 50)
    (hminInt : ∃ m : ℤ, (elementMinWeight isLP * 100 : ℚ) = (m : ℚ))
    (hmaxInt : ∃ m : ℤ, (elementMaxWeight dm * 100 : ℚ) = (m : ℚ))
    (h1 : elementMinWeight isLP ≤ w) (h2 : w ≤ elementMaxWeight dm) :
    normalizeElementWeight isLP dm w ∈ allowedElementWeights isLP dm ∧
    elementMinWeight isLP ≤ normalizeElementWeight isLP dm w ∧
    normalizeElementWeight isLP dm w ≤ elementMaxWeight dm := by
  set minW := elementMinWeight isLP with hminW
  set maxW := elementMaxWeight dm with hmaxW
  set step : ℚ := (maxW - minW) / 50 with hstepdef
  have hstep0 : 0 < step := lt_trans (by norm_num) hstep
  have hsteps_nonneg : (0 : ℤ) ≤ round ((w - minW) / step) := by
    rw [round_eq, Int.le_floor]
    have : 0 ≤ (w - minW) / step := div_nonneg (by linarith) (le_of_lt hstep0)
    push_cast
    linarith
  have hsteps_le : round ((w - minW) / step) ≤ 50 := by
    have hq : (w - minW) / step ≤ 50 := by
      rw [div_le_iff₀ hstep0]
      have : 50 * step = maxW - minW := by rw [hstepdef]; ring
      linarith
    rw [round_eq]
    have : ⌊(w - minW) / step + 1 / 2⌋ < 51 := by
      rw [Int.floor_lt]
      push_cast
      linarith
    omega
  set s : ℤ := round ((w - minW) / step) with hs
  set y : ℚ := minW + (s : ℚ) * step with hy
  have hscast0 : (0 : ℚ) ≤ (s : ℚ) := by exact_mod_cast hsteps_nonneg
  have hscast50 : (s : ℚ) ≤ 50 := by exact_mod_cast hsteps_le
  have hy1 : minW ≤ y := by
    rw [hy]
    nlinarith
  have hy2 : y ≤ maxW := by
    rw [hy]
    have h50 : 50 * step = maxW - minW := by rw [hstepdef]; ring
    nlinarith
  obtain ⟨hvlb', hvub'⟩ := toFixed2_bounds y
  have hvlb : minW ≤ toFixed2 y := by
    rcases eq_or_lt_of_le hsteps_nonneg with he | hlt
    · have hy0 : y = minW := by rw [hy, ← he]; push_cast; ring
      rw [hy0, toFixed2_eq_self minW hminInt]
    · have hs1 : (1 : ℚ) ≤ (s : ℚ) := by exact_mod_cast hlt
      nlinarith
  have hvub : toFixed2 y ≤ maxW := by
    rcases eq_or_lt_of_le hsteps_le with he | hlt
    · have hy50 : y = maxW := by
        rw [hy, he]
        push_cast
        rw [hstepdef]
        ring
      rw [hy50, toFixed2_eq_self maxW hmaxInt]
    · have hs49 : (s : ℚ) ≤ 49 := by
        have : s ≤ 49 := by omega
        exact_mod_cast this
      have h50 : 50 * step = maxW - minW := by rw [hstepdef]; ring
      nlinarith
  have hres : normalizeElementWeight isLP dm w = toFixed2 y := by
    rw [normalizeElementWeight, ← hminW, ← hmaxW, ← hstepdef, ← hs, ← hy,
      min_eq_right hvub, max_eq_right hvlb]
  refine ⟨?_, by rw [hres]; exact hvlb, by rw [hres]; exact hvub⟩
  rw [hres, allowedElementWeights]
  apply Finset.mem_image.mpr
  refine ⟨s.toNat, ?_, ?_⟩
  · apply Finset.mem_range.mpr
    omega
  · have hcast : ((s.toNat : ℕ) : ℚ) = (s : ℚ) := by
      exact_mod_cast Int.toNat_of_nonneg hsteps_nonneg
    rw [← hminW, ← hmaxW, ← hstepdef, hy, hcast]

/-- When the step is wider than the 0.01 rounding grain, the 51 snapped
values are pairwise distinct. -/
lemma allowedElementWeights_card (isLP : Bool) (dm : Option ℚ)
    (hstep : 1 / 100 < (elementMaxWeight dm - elementMinWeight isLP) / 50) :
    (allowedElementWeights isLP dm).card = 51 := by
  set minW := elementMinWeight isLP with hminW
  set maxW := elementMaxWeight dm with hmaxW
  set step : ℚ := (maxW - minW) / 50 with hstepdef
  have hmono : StrictMono (fun k : ℕ => toFixed2 (minW + (k : ℚ) * step)) := by
    apply strictMono_nat_of_lt_succ
    intro n
    obtain ⟨ha1, ha2⟩ := toFixed2_bounds (minW + (n : ℚ) * step)
    obtain ⟨hb1, hb2⟩ := toFixed2_bounds (minW + ((n + 1 : ℕ) : ℚ) * step)
    have hdiff : (minW + ((n + 1 : ℕ) : ℚ) * step) - (minW + (n : ℚ) * step) = step := by
      push_cast
      ring
    linarith
  rw [allowedElementWeights, ← hminW, ← hmaxW, ← hstepdef,
    Finset.card_image_of_injective _ hmono.injective, Finset.card_range]

/-- C8: for each catalogue element and each call-site mode, any input
weight within `[minWeight, maxWeight]` is normalized to a value that
stays within `[minWeight, maxWeight]` and is one of the exactly 51
snapped step values (steps 0 through 50). -/
theorem safelyAddElements_weight_snapped (isLP : Bool) (e : LeonardoElement) (w : ℚ)
    (he : e ∈ getAvailableElements)
    (h1 : elementMinWeight isLP ≤ w) (h2 : w ≤ elementMaxWeight e.maxWeight) :
    normalizeElementWeight isLP e.maxWeight w ∈ allowedElementWeights isLP e.maxWeight ∧
    elementMinWeight isLP ≤ normalizeElementWeight isLP e.maxWeight w ∧
    normalizeElementWeight isLP e.maxWeight w ≤ elementMaxWeight e.maxWeight ∧
    (allowedElementWeights isLP e.maxWeight).card = 51 := by
  have hmax : e.maxWeight = some 2 := by
    rw [getAvailableElements] at he
    rcases List.mem_singleton.mp he with rfl
    rfl
  have hstep : 1 / 100 < (elementMaxWeight e.maxWeight - elementMinWeight isLP) / 50 := by
    rw [hmax]
    cases isLP <;> norm_num [elementMaxWeight, elementMinWeight]
  have hminInt : ∃ m : ℤ, (elementMinWeight isLP * 100 : ℚ) = (m : ℚ) := by
    cases isLP
    · exact ⟨50, by norm_num [elementMinWeight]⟩
    · exact ⟨75, by norm_num [elementMinWeight]⟩
  have hmaxInt : ∃ m : ℤ, (elementMaxWeight e.maxWeight * 100 : ℚ) = (m : ℚ) := by
    rw [hmax]
    exact ⟨200, by norm_num [elementMaxWeight]⟩
  obtain ⟨m1, m2, m3⟩ := normalizeElementWeight_spec isLP e.maxWeight w hstep hminInt hmaxInt h1 h2
  exact ⟨m1, m2, m3, allowedElementWeights_card isLP e.maxWeight hstep⟩

/-- Witness for C8: Leonardo-process mode, the Cute Emotes element,
input weight 1. -/
theorem safelyAddElements_weight_snapped_witness :
    cuteEmotesElement ∈ getAvailableElements ∧
    elementMinWeight true ≤ 1 ∧ (1 : ℚ) ≤ elementMaxWeight cuteEmotesElement.maxWeight ∧
    (normalizeElementWeight true cuteEmotesElement.maxWeight 1 ∈
        allowedElementWeights true cuteEmotesElement.maxWeight ∧
      elementMinWeight true ≤ normalizeElementWeight true cuteEmotesElement.maxWeight 1 ∧
      normalizeElementWeight true cuteEmotesElement.maxWeight 1 ≤
        elementMaxWeight cuteEmotesElement.maxWeight ∧
      (allowedElementWeights true cuteEmotesElement.maxWeight).card = 51) :=
  ⟨by rw [getAvailableElements]; exact List.mem_singleton.mpr rfl,
   by norm_num [elementMinWeight],
   by norm_num [elementMaxWeight, cuteEmotesElement],
   safelyAddElements_weight_snapped true cuteEmotesElement 1
     (by rw [getAvailableElements]; exact List.mem_singleton.mpr rfl)
     (by norm_num [elementMinWeight])
     (by norm_num [elementMaxWeight, cuteEmotesElement])⟩

/-! ## Bilingual description parsing

Embeds `separateChineseAndEnglishText` (openaiService.ts lines
129-180).  The two regular expressions and the two global `replace`
calls are embedded as explicit scans over `List Char` with the JS
semantics: leftmost match, case-insensitive marker search, greedy `\s*`
with backtracking, and non-overlapping left-to-right replacement. -/

/-- JS `\s` / `trim()` whitespace (restricted to the ASCII whitespace
characters; JS additionally strips exotic Unicode spaces, which do not
occur in the claims). -/
def isWs (c : Char) : Bool :=
  c == ' ' || c == '\t' || c == '\n' || c == '\r' || c == '\x0b' || c == '\x0c'

/-- Embeds `String.prototype.trim()`. -/
def trimList (l : List Char) : List Char :=
  ((l.dropWhile isWs).reverse.dropWhile isWs).reverse

/-- Case-insensitive test that `s` starts with the (lowercase) pattern. -/
def startsWithCI (pat s : List Char) : Bool :=
  (s.take pat.length).map Char.toLower == pat

/-- Index of the leftmost case-insensitive occurrence of `pat`. -/
def findCI (pat : List Char) : List Char → Option ℕ
  | [] => none
  | c :: rest =>
    if startsWithCI pat (c :: rest) then some 0
    else (findCI pat rest).map (· + 1)

def chineseMarker : List Char := "[chinese]".toList

def englishMarker : List Char := "[english]".toList

/-- The capture of `/\[Chinese\]([\s\S]*?)(?=\[English\]|$)/i`: from
after the first `[Chinese]` marker (9 characters) lazily up to the
first following `[English]` marker, or to the end when there is none. -/
def chineseCapture (text : List Char) : Option (List Char) :=
  match findCI chineseMarker text with
  | none => none
  | some i =>
    match findCI englishMarker (text.drop (i + 9)) with
    | none => some (text.drop (i + 9))
    | some j => some ((text.drop (i + 9)).take j)

/-- The capture of `/\[English\]([\s\S]*?)$/i`: everything after the
first `[English]` marker. -/
def englishCapture (text : List Char) : Option (List Char) :=
  (findCI englishMarker text).map (fun i => text.drop (i + 9))

/-- Index of the last newline of a list, if any. -/
def lastNlIdx : List Char → Option ℕ
  | [] => none
  | c :: rest =>
    match lastNlIdx rest with
    | some j => some (j + 1)
    | none => if c == '\n' then some 0 else none

/-- Match of `/\n\s*\n/` at the head of `s` (returning the matched
length): a newline, then — greedily, with backtracking — whitespace up
to the *last* newline inside the following whitespace run. -/
def blankMatch (s : List Char) : Option ℕ :=
  match s with
  | [] => none
  | c :: rest =>
    if c == '\n' then
      match lastNlIdx (rest.takeWhile isWs) with
      | some j => some (j + 2)
      | none => none
    else none

/-- Match of `/\n{3,}/` at the head of `s` (greedy: the whole run). -/
def tripleNlMatch (s : List Char) : Option ℕ :=
  if 3 ≤ (s.takeWhile (· == '\n')).length then some (s.takeWhile (· == '\n')).length
  else none

/-- Non-overlapping left-to-right global replacement: at each position
try the matcher; on a match emit the replacement and resume after the
matched span.  The fuel argument (instantiated with the list length,
which bounds the number of steps) only makes the recursion structural. -/
def replaceScan (m : List Char → Option ℕ) (repl : List Char) : ℕ → List Char → List Char
  | 0, s => s
  | _ + 1, [] => []
  | fuel + 1, c :: rest =>
    match m (c :: rest) with
    | some n => repl ++ replaceScan m repl fuel ((c :: rest).drop n)
    | none => c :: replaceScan m repl fuel rest

/-- Embeds `String.prototype.replace(regexp-with-g-flag, repl)`. -/
def jsReplaceAll (m : List Char → Option ℕ) (repl : List Char) (s : List Char) : List Char :=
  replaceScan m repl s.length s

/-- Embeds the newline compression applied to every returned segment:
the blank-line replace (pattern backslash-n backslash-s-star
backslash-n, replacement one newline) followed by the run replace
(three or more newlines become two). -/
def compressNewlines (s : List Char) : List Char :=
  jsReplaceAll tripleNlMatch ['\n', '\n'] (jsReplaceAll blankMatch ['\n'] s)

/-- Embeds the regex character class of the line heuristic: ASCII
letters, whitespace, digits, and the punctuation characters period,
comma, semicolon, colon, parentheses, hyphen, apostrophe (39), double
quote, exclamation and question mark. -/
def isEnglishChar (c : Char) : Bool :=
  c.isAlpha || isWs c || c.isDigit ||
  ['.', ',', ';', ':', '(', ')', '-', Char.ofNat 39, '"', '!', '?'].contains c

/-- Embeds the anchored regex test of the heuristic on the trimmed line. -/
def testEnglishLine (line : List Char) : Bool :=
  !(trimList line).isEmpty && (trimList line).all isEnglishChar

/-- The `for` loop of lines 155-166: index of the first line that is
ASCII-English and has trimmed length > 10. -/
def findSplitIdx : List (List Char) → Option ℕ
  | [] => none
  | l :: rest =>
    if testEnglishLine l && decide (10 < (trimList l).length) then some 0
    else (findSplitIdx rest).map (· + 1)

/-- Embeds `separateChineseAndEnglishText` on character lists: marker-based
extraction, else the English-line heuristic, else both segments become
the full text; every produced segment is newline-compressed. -/
def separateCore (text : List Char) : List Char × List Char :=
  let chineseText :=
    match chineseCapture text with
    | some cap => if cap.isEmpty then [] else compressNewlines (trimList cap)
    | none => []
  let englishText :=
    match englishCapture text with
    | some cap => if cap.isEmpty then [] else compressNewlines (trimList cap)
    | none => []
  if chineseText.isEmpty && englishText.isEmpty then
    match findSplitIdx (text.splitOn '\n') with
    | some i =>
      (compressNewlines (trimList (List.intercalate ['\n'] ((text.splitOn '\n').take i))),
       compressNewlines (trimList (List.intercalate ['\n'] ((text.splitOn '\n').drop i))))
    | none => (compressNewlines text, compressNewlines text)
  else (chineseText, englishText)

/-- Embeds `separateChineseAndEnglishText(text)` returning the pair of
`chineseText` and `englishText`. -/
def separateChineseAndEnglishText (text : String) : String × String :=
  ((separateCore text.toList).1.asString, (separateCore text.toList).2.asString)

example : separateChineseAndEnglishText "[Chinese]你好[English]Hello" = ("你好", "Hello") := by
  decide

lemma findSplitIdx_eq_none (ls : List (List Char))
    (h : ∀ l ∈ ls, ¬(testEnglishLine l = true ∧ 10 < (trimList l).length)) :
    findSplitIdx ls = none := by
  induction ls with
  | nil => rfl
  | cons a as ih =>
    rw [findSplitIdx]
    have hcond : ¬(testEnglishLine a && decide (10 < (trimList a).length)) = true := by
      simp only [Bool.and_eq_true, decide_eq_true_eq]
      exact h a (List.mem_cons_self a as)
    rw [if_neg hcond, ih (fun l hl => h l (List.mem_cons_of_mem a hl))]
    rfl

/-- C9 (amended): on input with neither marker and no ASCII-English
line of trimmed length > 10, both returned segments equal the full
original text *after newline compression* (so they equal the original
exactly when the compression leaves it unchanged). -/
theorem separate_no_marker_no_split (text : List Char)
    (hc : findCI chineseMarker text = none)
    (he : findCI englishMarker text = none)
    (hlines : ∀ l ∈ text.splitOn '\n',
      ¬(testEnglishLine l = true ∧ 10 < (trimList l).length)) :
    separateCore text = (compressNewlines text, compressNewlines text) := by
  have hsplit : findSplitIdx (text.splitOn '\n') = none :=
    findSplitIdx_eq_none _ hlines
  simp only [separateCore, chineseCapture, englishCapture, hc, he, hsplit, Option.map_none,
    Option.map_none', List.isEmpty_nil, Bool.and_self, if_true]

/-- Witness for the amended C9 at the concrete input `你好\n\n世界`. -/
theorem separate_no_marker_no_split_witness :
    findCI chineseMarker "你好\n\n世界".toList = none ∧
    findCI englishMarker "你好\n\n世界".toList = none ∧
    (∀ l ∈ "你好\n\n世界".toList.splitOn '\n',
      ¬(testEnglishLine l = true ∧ 10 < (trimList l).length)) ∧
    separateCore "你好\n\n世界".toList =
      (compressNewlines "你好\n\n世界".toList, compressNewlines "你好\n\n世界".toList) :=
  ⟨by decide, by decide, by decide,
   separate_no_marker_no_split _ (by decide) (by decide) (by decide)⟩

/-- C9 (counterexample): the input `你好\n\n世界` has no marker and no
long ASCII line, yet the returned segments are `你好\n世界` — the blank
line was compressed away — and *not* the full original text, contrary
to the claim. -/
theorem separate_fallback_differs_from_original :
    findCI chineseMarker "你好\n\n世界".toList = none ∧
    findCI englishMarker "你好\n\n世界".toList = none ∧
    (∀ l ∈ "你好\n\n世界".toList.splitOn '\n',
      ¬(testEnglishLine l = true ∧ 10 < (trimList l).length)) ∧
    separateChineseAndEnglishText "你好\n\n世界" = ("你好\n世界", "你好\n世界") ∧
    ("你好\n世界" : String) ≠ "你好\n\n世界" := by
  refine ⟨by decide, by decide, by decide, by decide, by decide⟩

end YnnAI
